import Mathlib

/-!
Verification development for the expense-approval workflow engine of a
multi-tenant expense-reporting application (Express/PostgreSQL backend).

The embedding models the approval service (rule selection, workflow
construction, decision processing) and the HTTP route layer that guards it,
as pure functions over an explicit database state.  SQL queries are
translated into list operations over that state; a query that the
JavaScript code follows with an unguarded `rows[0]` access is modelled with
`Option`, where `none` stands for the thrown `TypeError` (which aborts and
rolls back the enclosing transaction).  JavaScript number arithmetic in the
percentage check is modelled exactly as IEEE-754 binary64 (round to
nearest, ties to even), represented by an integer mantissa and a binary
exponent.  Timestamps (`approved_at`, `created_at`, `updated_at`) are not
modelled; nothing in the engine reads them back.
-/

namespace ExpenseApproval

/-- Status values of the `status` columns of `expenses` and
`expense_approvals` that the engine uses (`processing` is reserved and
never produced by the engine). -/
inductive Status where
  | pending
  | approved
  | rejected
deriving DecidableEq, Repr

/-- Decision actions accepted by the route layer (Joi validation admits
exactly the strings `approved` and `rejected`). -/
inductive Action where
  | approved
  | rejected
deriving DecidableEq, Repr

/-- Writing a decision action into a status column. -/
def Action.toStatus : Action → Status
  | .approved => .approved
  | .rejected => .rejected

/-- The `rule_type` column of `approval_rules` (CHECK-constrained). -/
inductive RuleType where
  | sequential
  | percentage
  | specific_approver
  | hybrid
deriving DecidableEq, Repr

/-- The `approver_role` column of `approval_rule_steps`. -/
inductive ApproverRole where
  | manager
  | admin
  | specific_user
deriving DecidableEq, Repr

/-- The `role` column of `users`. -/
inductive UserRole where
  | admin
  | manager
  | employee
deriving DecidableEq, Repr

/-- Row of the `users` table (columns the engine reads). -/
structure User where
  id : Nat
  company_id : Nat
  role : UserRole
  manager_id : Option Nat
  is_active : Bool
deriving DecidableEq, Repr

/-- Row of the `approval_rules` table.  `min_amount` and `max_amount` are
nullable DECIMAL columns, modelled as optional rationals. -/
structure ApprovalRule where
  id : Nat
  company_id : Nat
  rule_type : RuleType
  min_amount : Option ℚ
  max_amount : Option ℚ
  percentage_required : Option Nat
  specific_approver_id : Option Nat
  sequence_order : Option Nat
  is_active : Bool
deriving DecidableEq, Repr

/-- Row of the `approval_rule_steps` table. -/
structure RuleStep where
  rule_id : Nat
  step_order : Nat
  approver_role : ApproverRole
  approver_id : Option Nat
  is_required : Bool
deriving DecidableEq, Repr

/-- Row of the `expenses` table (columns the engine reads or writes). -/
structure Expense where
  id : Nat
  employee_id : Nat
  company_id : Nat
  converted_amount : ℚ
  status : Status
  approval_rule_id : Option Nat
deriving DecidableEq, Repr

/-- Row of the `expense_approvals` table (the approval ledger).
`approver_id` is a nullable foreign key. -/
structure LedgerRow where
  expense_id : Nat
  approver_id : Option Nat
  step_order : Nat
  status : Status
  comments : Option String
deriving DecidableEq, Repr

/-- Row of the `notifications` table (columns the engine writes). -/
structure Notification where
  user_id : Nat
  expense_id : Nat
  ntype : String
  title : String
  message : String
deriving DecidableEq, Repr

/-- The database state the approval engine operates on. -/
structure DBState where
  expenses : List Expense
  rules : List ApprovalRule
  ruleSteps : List RuleStep
  approvals : List LedgerRow
  users : List User
  notifications : List Notification
deriving DecidableEq, Repr

/-- Model of `SELECT ... FROM expenses WHERE id = $1` followed by
`rows[0]`. -/
def findExpense (st : DBState) (eid : Nat) : Option Expense :=
  st.expenses.find? (fun e => e.id == eid)

/-- Model of `SELECT ... FROM approval_rules WHERE id = $1` followed by
`rows[0]`. -/
def findRule (st : DBState) (rid : Nat) : Option ApprovalRule :=
  st.rules.find? (fun r => r.id == rid)

/-- Model of `SELECT ... FROM users WHERE id = $1` followed by `rows[0]`. -/
def findUser (st : DBState) (uid : Nat) : Option User :=
  st.users.find? (fun u => u.id == uid)

/-- WHERE clause of `getApplicableRule`: company match, `is_active`, and
`(min_amount IS NULL OR amount >= min_amount) AND (max_amount IS NULL OR
amount <= max_amount)`. -/
def ruleMatches (amount : ℚ) (companyId : Nat) (r : ApprovalRule) : Bool :=
  r.company_id == companyId && r.is_active &&
    (match r.min_amount with
     | none => true
     | some m => decide (m ≤ amount)) &&
    (match r.max_amount with
     | none => true
     | some m => decide (amount ≤ m))

/-- Secondary sort key of `getApplicableRule`: `sequence_order ASC`
(PostgreSQL default NULLS LAST for ascending order).  `seqBefore a b` holds
when `a` sorts strictly before `b` on this key. -/
def seqBefore (a b : ApprovalRule) : Bool :=
  match a.sequence_order, b.sequence_order with
  | some x, some y => x < y
  | some _, none => true
  | none, _ => false

/-- Full sort key of `getApplicableRule`: `ORDER BY min_amount DESC,
sequence_order ASC` (PostgreSQL default NULLS FIRST for descending order).
`ruleBefore a b` holds when `a` sorts strictly before `b`. -/
def ruleBefore (a b : ApprovalRule) : Bool :=
  match a.min_amount, b.min_amount with
  | none, none => seqBefore a b
  | none, some _ => true
  | some _, none => false
  | some x, some y =>
      if y < x then true else if x < y then false else seqBefore a b

/-- One step of the `LIMIT 1` scan over the ordered rows: keep the current
candidate unless the next row sorts strictly before it. -/
def pickRule (acc : Option ApprovalRule) (r : ApprovalRule) : Option ApprovalRule :=
  match acc with
  | none => some r
  | some c => if ruleBefore r c then some r else acc

/-- Model of `getApplicableRule(expenseAmount, companyId)`: the WHERE
filter followed by `ORDER BY min_amount DESC, sequence_order ASC LIMIT 1`.
SQL leaves the choice among rows tied on both keys unspecified; the model
determinizes it to the first such row in table order, which is what the
`LIMIT 1` scan returns when the sort is stable. -/
def getApplicableRule (rules : List ApprovalRule) (amount : ℚ)
    (companyId : Nat) : Option ApprovalRule :=
  (rules.filter (ruleMatches amount companyId)).foldl pickRule none

/-! ## JavaScript number arithmetic

`checkPercentageApproval` computes `(approved / total) * 100 >=
requiredPercentage` on JavaScript numbers, i.e. IEEE-754 binary64 with
round-to-nearest, ties-to-even.  The operand counts come from SQL `COUNT`
(exactly representable integers), so the computation is: one correctly
rounded division, one correctly rounded multiplication by 100, and an exact
comparison.  A nonnegative finite double is represented as `mant * 2 ^ exp`
with a natural mantissa and an integer exponent. -/

/-- Fuel-driven base-2 logarithm on naturals (structural recursion so that
the kernel can evaluate it, unlike `Nat.log2`).  For `1 ≤ n < 2 ^ fuel`,
`log2fuel fuel n` is the floor of the base-2 logarithm of `n`. -/
def log2fuel : Nat → Nat → Nat
  | 0, _ => 0
  | fuel + 1, n => if 2 ≤ n then log2fuel fuel (n / 2) + 1 else 0

/-- Base-2 floor logarithm, adequate for every quantity in this model
(mantissas and products stay far below `2 ^ 128`). -/
def nlog2 (n : Nat) : Nat :=
  log2fuel 128 n

/-- Decides `a / b < 2 ^ e` for naturals `a`, `b > 0` and an integer
exponent. -/
def qlt2pow (a b : Nat) (e : Int) : Bool :=
  if 0 ≤ e then a < b * 2 ^ e.toNat else a * 2 ^ (-e).toNat < b

/-- Floor of the base-2 logarithm of the positive rational `a / b`
(`a, b ≥ 1`): the candidate from the integer logarithms is off by at most
one and is fixed by direct comparison. -/
def qfloorLog2 (a b : Nat) : Int :=
  let e0 : Int := (nlog2 a : Int) - (nlog2 b : Int)
  if qlt2pow a b e0 then e0 - 1
  else if qlt2pow a b (e0 + 1) then e0
  else e0 + 1

/-- Rounds `num / den` (for `den > 0`) to the nearest natural, ties to
even. -/
def roundScaled (num den : Nat) : Nat :=
  let q := num / den
  let r := num % den
  if 2 * r < den then q
  else if den < 2 * r then q + 1
  else if q % 2 == 0 then q else q + 1

/-- Nonnegative finite binary64 value `mant * 2 ^ exp`. -/
structure JsFloat where
  mant : Nat
  exp : Int
deriving DecidableEq, Repr

/-- Correctly rounded IEEE-754 binary64 division of the naturals `a / b`
(round to nearest, ties to even): scale the exact quotient into
`[2 ^ 52, 2 ^ 53)` and round the 53-bit mantissa.  `a = 0` yields `+0`;
`b = 0` cannot be reached from the call sites (guarded by the `total = 0`
NaN case). -/
def jsDiv (a b : Nat) : JsFloat :=
  if a == 0 || b == 0 then ⟨0, 0⟩
  else
    let e := qfloorLog2 a b
    let k : Int := 52 - e
    let num := if 0 ≤ k then a * 2 ^ k.toNat else a
    let den := if 0 ≤ k then b else b * 2 ^ (-k).toNat
    ⟨roundScaled num den, e - 52⟩

/-- Correctly rounded IEEE-754 binary64 multiplication by the exact
constant 100: the integer product of the mantissa is rounded back to 53
bits when it overflows them. -/
def jsMul100 (x : JsFloat) : JsFloat :=
  let p := x.mant * 100
  let s := nlog2 p
  if s ≤ 52 then ⟨p, x.exp⟩
  else ⟨roundScaled p (2 ^ (s - 52)), x.exp + (s - 52 : Nat)⟩

/-- Exact comparison `r <= x` of a natural against a nonnegative double
(IEEE comparison of exactly representable operands is exact). -/
def jsGeNat (x : JsFloat) (r : Nat) : Bool :=
  if 0 ≤ x.exp then r ≤ x.mant * 2 ^ x.exp.toNat
  else r * 2 ^ (-x.exp).toNat ≤ x.mant

/-- The JavaScript comparison `(approved / total) * 100 >=
requiredPercentage` from `checkPercentageApproval`.  When `total = 0`
(hence `approved = 0`) the quotient is `0 / 0 = NaN` and every `>=`
comparison against NaN is false. -/
def jsPercentGe (approved total required : Nat) : Bool :=
  if total == 0 then false
  else jsGeNat (jsMul100 (jsDiv approved total)) required

/-! ## Workflow Builder (`createApprovalWorkflow` and its strategies)

The builder functions run inside their own transaction on a dedicated
client.  `Option DBState` models one statement sequence: `none` is a thrown
JavaScript error (unguarded `rows[0]` access on an empty result), which the
catch block answers with `ROLLBACK`, so a `none` leaves the store as it
was. -/

/-- JavaScript truthiness of a nullable integer id: `null`, `undefined`
and `0` are falsy. -/
def jsTruthy : Option Nat → Bool
  | some n => n != 0
  | none => false

/-- Insertion-sort step, stable and ascending on `step_order`. -/
def insertByStepOrder (s : RuleStep) : List RuleStep → List RuleStep
  | [] => [s]
  | t :: ts =>
      if t.step_order ≤ s.step_order then t :: insertByStepOrder s ts
      else s :: t :: ts

/-- Model of `SELECT * FROM approval_rule_steps WHERE rule_id = $1 ORDER BY
step_order ASC` (stable ascending sort of the matching rows). -/
def stepsOfRule (st : DBState) (rid : Nat) : List RuleStep :=
  (st.ruleSteps.filter (fun s => s.rule_id == rid)).foldl
    (fun acc s => insertByStepOrder s acc) []

/-- A freshly inserted pending ledger row. -/
def mkPendingRow (eid aid ord : Nat) : LedgerRow :=
  ⟨eid, some aid, ord, .pending, none⟩

/-- Loop body of `createSequentialApprovals`: for each step in order,
`approverId` starts as `step.approver_id`; a `manager` step overwrites it
with the expense owner's `manager_id` (the expense read is unguarded and
throws when the row is missing, while the manager read uses `?.` and
yields a falsy value when the user or the `manager_id` is missing); a
truthy `approverId` inserts one pending row with the step's order, a falsy
one is skipped. -/
def seqLoop (st : DBState) (eid : Nat) : List RuleStep → Option (List LedgerRow)
  | [] => some []
  | step :: rest =>
      let resolved : Option (Option Nat) :=
        match step.approver_role with
        | .manager =>
            match findExpense st eid with
            | none => none
            | some e => some ((findUser st e.employee_id).bind (fun u => u.manager_id))
        | _ => some step.approver_id
      match resolved with
      | none => none
      | some approverId =>
          match seqLoop st eid rest with
          | none => none
          | some rows =>
              if jsTruthy approverId then
                some (mkPendingRow eid (approverId.getD 0) step.step_order :: rows)
              else some rows

/-- Model of `createSequentialApprovals(client, expenseId, ruleId)`. -/
def createSequentialApprovals (st : DBState) (eid rid : Nat) : Option DBState :=
  (seqLoop st eid (stepsOfRule st rid)).map
    (fun rows => { st with approvals := st.approvals ++ rows })

/-- Model of the approver query of `createPercentageApprovals`: every
active manager or admin of the company, in table order. -/
def percentApprovers (st : DBState) (cid : Nat) : List User :=
  st.users.filter
    (fun u => u.company_id == cid &&
      (u.role == UserRole.manager || u.role == UserRole.admin) && u.is_active)

/-- Model of `createPercentageApprovals(client, expenseId, ruleId)`: reads
the expense company (unguarded `rows[0]`), then inserts one pending row
with `step_order = 1` per active manager/admin of that company. -/
def createPercentageApprovals (st : DBState) (eid _rid : Nat) : Option DBState :=
  match findExpense st eid with
  | none => none
  | some e =>
      let rows := (percentApprovers st e.company_id).map (fun u => mkPendingRow eid u.id 1)
      some { st with approvals := st.approvals ++ rows }

/-- Model of `createSpecificApproverApproval(client, expenseId,
approverId)`: inserts one pending row with `step_order = 1`; a null
approver id is inserted as NULL. -/
def createSpecificApproverApproval (st : DBState) (eid : Nat)
    (approverId : Option Nat) : DBState :=
  { st with approvals := st.approvals ++ [⟨eid, approverId, 1, .pending, none⟩] }

/-- Model of `createHybridApprovals(client, expenseId, ruleId)`: the
percentage rows first, then, when the rule's `specific_approver_id` is
truthy, the dedicated specific-approver row. -/
def createHybridApprovals (st : DBState) (eid rid : Nat) : Option DBState :=
  match createPercentageApprovals st eid rid with
  | none => none
  | some st1 =>
      match findRule st1 rid with
      | none => none
      | some rule =>
          if jsTruthy rule.specific_approver_id then
            some (createSpecificApproverApproval st1 eid rule.specific_approver_id)
          else some st1

/-- Failure modes of `createApprovalWorkflow`: the explicit
`throw new Error('Approval rule not found')`, or a JavaScript `TypeError`
from an unguarded `rows[0]` access.  Either one triggers the catch block's
`ROLLBACK`, so the store is unchanged on error. -/
inductive WorkflowError where
  | ruleNotFound
  | jsError
deriving DecidableEq, Repr

/-- Model of `createApprovalWorkflow(expenseId, ruleId)`: looks the rule up
and dispatches on `rule_type`; a rule type outside the four strategies
would commit without creating rows (unreachable under the CHECK
constraint). -/
def createApprovalWorkflow (st : DBState) (eid rid : Nat) :
    Except WorkflowError DBState :=
  match findRule st rid with
  | none => .error .ruleNotFound
  | some rule =>
      match rule.rule_type with
      | .sequential =>
          match createSequentialApprovals st eid rid with
          | none => .error .jsError
          | some st2 => .ok st2
      | .percentage =>
          match createPercentageApprovals st eid rid with
          | none => .error .jsError
          | some st2 => .ok st2
      | .specific_approver =>
          .ok (createSpecificApproverApproval st eid rule.specific_approver_id)
      | .hybrid =>
          match createHybridApprovals st eid rid with
          | none => .error .jsError
          | some st2 => .ok st2

/-! ## Decision Processor (`processApproval` and the completion checks) -/

/-- Model of the ledger UPDATE of `processApproval`:
`UPDATE expense_approvals SET status = $1, comments = $2 WHERE expense_id =
$3 AND approver_id = $4 AND status = 'pending'` (it touches every matching
pending row). -/
def updateApprovalRows (rows : List LedgerRow) (eid aid : Nat) (action : Action)
    (comments : Option String) : List LedgerRow :=
  rows.map (fun r =>
    if r.expense_id == eid && r.approver_id == some aid && r.status == Status.pending then
      { r with status := action.toStatus, comments := comments }
    else r)

/-- Model of `SELECT ... FROM expense_approvals WHERE expense_id = $1`. -/
def rowsOf (st : DBState) (eid : Nat) : List LedgerRow :=
  st.approvals.filter (fun r => r.expense_id == eid)

/-- Model of `checkSequentialApproval`: every row approved wins, any
rejected row forces rejection, otherwise no update.  `none` means
`{ update: false }` and `some s` means `{ update: true, status: s }`. -/
def checkSequentialApproval (rows : List LedgerRow) : Option Status :=
  let allApproved := rows.all (fun r => r.status == Status.approved)
  let hasRejection := rows.any (fun r => r.status == Status.rejected)
  if hasRejection then some .rejected
  else if allApproved then some .approved
  else none

/-- Model of `checkPercentageApproval`: counts all rows and the approved
rows of the expense and compares in JavaScript number arithmetic. -/
def checkPercentageApproval (rows : List LedgerRow) (requiredPercentage : Nat) :
    Option Status :=
  let total := rows.length
  let approved := (rows.filter (fun r => r.status == Status.approved)).length
  if jsPercentGe approved total requiredPercentage then some .approved else none

/-- Model of `checkHybridApproval`.  The specific-approver query joins
`expense_approvals ea` to `approval_rules ar` on `ar.specific_approver_id =
ea.approver_id` and to `expenses e` on `e.approval_rule_id = ar.id` with
`e.id = $1` and `ea.status = 'approved'`; the join carries no condition
tying `ea.expense_id` to the expense, so it matches an approved row by that
approver in ANY expense.  When the join is empty the percentage predicate
over the expense's own rows decides. -/
def checkHybridApproval (st : DBState) (eid : Nat) (requiredPercentage : Nat) :
    Option Status :=
  let specificApproved :=
    match findExpense st eid with
    | none => false
    | some e =>
        match e.approval_rule_id with
        | none => false
        | some rid =>
            match findRule st rid with
            | none => false
            | some ar =>
                match ar.specific_approver_id with
                | none => false
                | some sid =>
                    st.approvals.any
                      (fun r => r.approver_id == some sid && r.status == Status.approved)
  if specificApproved then some .approved
  else checkPercentageApproval (rowsOf st eid) requiredPercentage

/-- Model of `shouldUpdateExpenseStatus(client, expenseId, action)`.  The
outer `none` is the thrown `TypeError` when the expense row is missing; an
absent or dangling `approval_rule_id` answers `{ update: false }`; a
rejected action forces rejection for every rule type; otherwise the rule
type's completion check decides.  A NULL `percentage_required` coerces to
`0` in the JavaScript `>=` comparison, hence `getD 0`. -/
def shouldUpdateExpenseStatus (st : DBState) (eid : Nat) (action : Action) :
    Option (Option Status) :=
  match findExpense st eid with
  | none => none
  | some e =>
      match e.approval_rule_id.bind (findRule st) with
      | none => some none
      | some rule =>
          if action == Action.rejected then some (some .rejected)
          else
            some (match rule.rule_type with
              | .sequential => checkSequentialApproval (rowsOf st eid)
              | .percentage =>
                  checkPercentageApproval (rowsOf st eid) (rule.percentage_required.getD 0)
              | .specific_approver => some .approved
              | .hybrid => checkHybridApproval st eid (rule.percentage_required.getD 0))

/-- Model of `UPDATE expenses SET status = $1 WHERE id = $2`. -/
def setExpenseStatus (st : DBState) (eid : Nat) (s : Status) : DBState :=
  { st with
    expenses := st.expenses.map (fun e => if e.id == eid then { e with status := s } else e) }

/-- Printable status text used in the notification strings. -/
def statusText : Status → String
  | .pending => "pending"
  | .approved => "approved"
  | .rejected => "rejected"

/-- The `{ update, status }` object `processApproval` returns. -/
structure ProcessResult where
  update : Bool
  status : Option Status
deriving DecidableEq, Repr

/-- Model of `processApproval(expenseId, approverId, action, comments)`:
updates the matching pending ledger rows, evaluates
`shouldUpdateExpenseStatus` on the updated state, and on `update: true`
flips the expense status and inserts one notification for the expense
owner.  `none` is a thrown error answered by `ROLLBACK` (state
unchanged). -/
def processApproval (st : DBState) (eid aid : Nat) (action : Action)
    (comments : Option String) : Option (DBState × ProcessResult) :=
  let st1 := { st with approvals := updateApprovalRows st.approvals eid aid action comments }
  match shouldUpdateExpenseStatus st1 eid action with
  | none => none
  | some none => some (st1, ⟨false, none⟩)
  | some (some s) =>
      let st2 := setExpenseStatus st1 eid s
      match findExpense st2 eid with
      | none => none
      | some e2 =>
          some
            ({ st2 with
                notifications := st2.notifications ++
                  [⟨e2.employee_id, eid, "expense_status_update",
                    "Expense " ++ statusText s,
                    "Your expense has been " ++ statusText s⟩] },
             ⟨true, some s⟩)

/-! ## Route layer (`POST /api/approvals/:expenseId/process`) -/

/-- Errors of the process route: the 404 answer
`No pending approval found for this expense` (the spec's
`NotAuthorizedError`), and the 500 answer when the service throws. -/
inductive RouteError where
  | notAuthorized
  | serverError
deriving DecidableEq, Repr

/-- Model of the route's precondition query: pending ledger rows of
`(expenseId, approverId)` joined to an expense of the caller's company. -/
def pendingApprovalRows (st : DBState) (eid aid cid : Nat) : List LedgerRow :=
  st.approvals.filter
    (fun r => r.expense_id == eid && r.approver_id == some aid &&
      r.status == Status.pending &&
      st.expenses.any (fun e => e.id == eid && e.company_id == cid))

/-- Model of the route handler: a 404 when no pending row matches,
otherwise `processApproval`.  An error leaves the store unchanged (the
service rolls back before rethrowing). -/
def routeProcessApproval (st : DBState) (eid aid cid : Nat) (action : Action)
    (comments : Option String) : Except RouteError (DBState × ProcessResult) :=
  if (pendingApprovalRows st eid aid cid).length == 0 then .error .notAuthorized
  else
    match processApproval st eid aid action comments with
    | none => .error .serverError
    | some out => .ok out

/-- Expense status read-back helper used by the theorems. -/
def statusOf (st : DBState) (eid : Nat) : Option Status :=
  (findExpense st eid).map (fun e => e.status)

/-! ## Expense submission (`POST /api/expenses`, transaction structure)

The route opens a transaction T1 on its own client, inserts the expense,
selects a rule via the pool (`db.query`, committed data), and calls
`createApprovalWorkflow`, which opens a SECOND transaction T2 on another
pooled client and commits it by itself.  Under read-committed isolation T2
sees only committed data, never the expense T1 has not committed yet, and
the schema declares `expense_approvals.expense_id INTEGER REFERENCES
expenses(id)`: an INSERT of a ledger row whose expense id T2 cannot see
raises an immediate foreign-key violation, which the catch block answers
with ROLLBACK of T2.  The model therefore runs the builder against the
committed store, enforces the foreign key on the rows the builder would
commit, and only afterwards commits T1 writes; a failure of a later T1
statement (modelled by `ocrInsertFails`, the `ocr_results` INSERT) rolls
back T1 alone. -/

/-- Model of the builder transaction T2 as the expense route runs it,
with the `expense_approvals.expense_id` foreign key enforced.  Every row
this service inserts carries the expense id `eid`, and the transaction
rolls back as a whole on its first failing statement, so checking once —
did the builder insert any row while `eid` is invisible to it? — is
observationally the same as the per-INSERT check PostgreSQL performs.
`none` is any error (thrown JavaScript error, missing rule, or foreign-key
violation); all of them leave the committed store unchanged. -/
def runWorkflowTx (st : DBState) (eid rid : Nat) : Option DBState :=
  match createApprovalWorkflow st eid rid with
  | .error _ => none
  | .ok st2 =>
      if st2.approvals.length != st.approvals.length && !(findExpense st eid).isSome then
        none
      else some st2

/-- Model of the expense-creation route.  Returns the committed store after
the request and whether the request succeeded. -/
def createExpenseRoute (st : DBState) (eid employeeId cid : Nat) (amount : ℚ)
    (ocrInsertFails : Bool) : DBState × Bool :=
  let newExpense : Expense := ⟨eid, employeeId, cid, amount, .pending, none⟩
  match getApplicableRule st.rules amount cid with
  | some rule =>
      match runWorkflowTx st eid rule.id with
      | none => (st, false)
      | some stAfterWf =>
          if ocrInsertFails then (stAfterWf, false)
          else
            ({ stAfterWf with
                expenses := stAfterWf.expenses ++
                  [{ newExpense with approval_rule_id := some rule.id }] },
             true)
  | none =>
      if ocrInsertFails then (st, false)
      else ({ st with expenses := st.expenses ++ [{ newExpense with status := .approved }] },
            true)

/-! ## Spec-side comparison definitions

Two definitions below follow the words of the specification (not the code);
they exist only to be compared against the code-derived definitions. -/

/-- Percentage predicate as the specification words it, in exact integer
arithmetic: `(approvedCount / totalCount) * 100 >= percentageRequired`
computed over the rationals, i.e. `approved * 100 >= required * total`.
This is the "integer-safe rounding consistent with the stored
percentageRequired" reading of the spec, to be compared with the
code's binary64 evaluation `jsPercentGe`. -/
def exactPercentGe (approved total required : Nat) : Bool :=
  decide (required * total ≤ approved * 100)

/-- Hybrid completion predicate as the specification words it: the
dedicated specific-approver ledger row of THIS expense is approved, or the
percentage predicate over the REMAINING (non-specific-approver) rows of the
expense is satisfied.  To be compared with the code's
`checkHybridApproval`. -/
def hybridClaimApproved (st : DBState) (eid sid required : Nat) : Bool :=
  let rows := rowsOf st eid
  let specificRows := rows.filter (fun r => r.approver_id == some sid)
  let remaining := rows.filter (fun r => r.approver_id != some sid)
  specificRows.any (fun r => r.status == Status.approved) ||
    exactPercentGe
      ((remaining.filter (fun r => r.status == Status.approved)).length)
      remaining.length required

/-- Row produced by one sequential step, as the amended reading of the
builder states it: a `manager` step resolves to the expense owner's
`manager_id` looked up at build time, every other step (including `admin`)
resolves to `step.approver_id`; a falsy resolution produces no row.
`emp` is the expense owner's user id. -/
def seqStepRow (st : DBState) (eid emp : Nat) (step : RuleStep) : Option LedgerRow :=
  let approverId : Option Nat :=
    match step.approver_role with
    | ApproverRole.manager => (findUser st emp).bind (fun u => u.manager_id)
    | _ => step.approver_id
  if jsTruthy approverId then some (mkPendingRow eid (approverId.getD 0) step.step_order)
  else none

/-! ## Decision runs -/

/-- Runs one approve-decision per approver in the given order through
`processApproval`; `none` propagates a thrown error. -/
def runApprovals (eid : Nat) (st : DBState) : List Nat → Option DBState
  | [] => some st
  | a :: rest =>
      match processApproval st eid a Action.approved none with
      | none => none
      | some (st2, _) => runApprovals eid st2 rest

/-- Invariant of a sequential-rule approval run: the expense is pending
under a sequential rule, and the ledger rows of the expense are pending
exactly for the approvers still in `remaining` and approved for everyone
else. -/
def SeqRunInv (st : DBState) (eid rid : Nat) (remaining : List Nat) : Prop :=
  (∃ e, findExpense st eid = some e ∧ e.status = Status.pending ∧
    e.approval_rule_id = some rid) ∧
  (∃ rule, findRule st rid = some rule ∧ rule.rule_type = RuleType.sequential) ∧
  remaining.Nodup ∧
  (∀ r ∈ rowsOf st eid, ∃ a, r.approver_id = some a ∧
    ((a ∈ remaining ∧ r.status = Status.pending) ∨
     (a ∉ remaining ∧ r.status = Status.approved))) ∧
  (∀ a ∈ remaining, ∃ r ∈ rowsOf st eid, r.approver_id = some a)

/-! ## Concrete stores used by the witnesses and counterexamples -/

/-- Pending ledger row of expense 10 for one approver. -/
def c1row (a : Nat) : LedgerRow := ⟨10, some a, 1, .pending, none⟩

/-- Percentage rule requiring 60 percent. -/
def c1rule : ApprovalRule := ⟨20, 1, .percentage, some 0, none, some 60, none, some 1, true⟩

/-- Pending expense 10 of employee 5 governed by rule 20. -/
def c1exp : Expense := ⟨10, 5, 1, 500, .pending, some 20⟩

/-- Store with a percentage-rule expense awaiting five approvers. -/
def c1st0 : DBState :=
  ⟨[c1exp], [c1rule], [], [c1row 101, c1row 102, c1row 103, c1row 104, c1row 105], [], []⟩

/-- One decision through the process route, keeping the store on error. -/
def c1next (st : DBState) (a : Nat) (act : Action) : DBState :=
  ((routeProcessApproval st 10 a 1 act none).toOption.map Prod.fst).getD st

/-- Store after approver 101 rejects. -/
def c1s1 : DBState := c1next c1st0 101 .rejected

/-- Store after approver 102 then approves. -/
def c1s2 : DBState := c1next c1s1 102 .approved

/-- Store after approver 103 then approves. -/
def c1s3 : DBState := c1next c1s2 103 .approved

/-- Store after approver 104 then approves (the third approval). -/
def c1s4 : DBState := c1next c1s3 104 .approved

/-- Rule A of the selector scenario: Sequential, range 0..100, default
`sequenceOrder` 1 (the Joi default). -/
def c2ruleA : ApprovalRule := ⟨1, 1, .sequential, some 0, some 100, none, none, some 1, true⟩

/-- Rule B of the selector scenario: Percentage 60, range 0..1000, default
`sequenceOrder` 1. -/
def c2ruleB : ApprovalRule := ⟨2, 1, .percentage, some 0, some 1000, some 60, none, some 1, true⟩

/-- Rule A with an explicitly lower `sequenceOrder` than rule B. -/
def c2ruleA1 : ApprovalRule := c2ruleA

/-- Rule B with `sequenceOrder` 2. -/
def c2ruleB2 : ApprovalRule := { c2ruleB with sequence_order := some 2 }

/-- Active admin user 7 of company 1. -/
def c3admin : User := ⟨7, 1, .admin, none, true⟩

/-- Employee 5, whose direct manager is user 6. -/
def c3employee : User := ⟨5, 1, .employee, some 6, true⟩

/-- Manager user 6. -/
def c3manager : User := ⟨6, 1, .manager, none, true⟩

/-- Sequential rule 30. -/
def c3rule : ApprovalRule := ⟨30, 1, .sequential, some 0, none, none, none, some 1, true⟩

/-- Admin step of rule 30 with no `approver_id` (the Joi schema only
requires one for `specific_user` steps). -/
def c3stepAdmin : RuleStep := ⟨30, 1, .admin, none, true⟩

/-- Manager step of rule 30. -/
def c3stepMgr : RuleStep := ⟨30, 2, .manager, none, true⟩

/-- Specific-user step of rule 30 naming approver 9. -/
def c3stepSpec : RuleStep := ⟨30, 3, .specific_user, some 9, true⟩

/-- Expense 10 governed by sequential rule 30. -/
def c3exp : Expense := { c1exp with approval_rule_id := some 30 }

/-- Store for the sequential-builder witness: all three step kinds. -/
def c3st : DBState :=
  ⟨[c3exp], [c3rule], [c3stepAdmin, c3stepMgr, c3stepSpec], [],
   [c3admin, c3employee, c3manager], []⟩

/-- Store for the admin-step counterexample: only the admin step, with an
active admin present in the company. -/
def c3stCx : DBState :=
  ⟨[c3exp], [c3rule], [c3stepAdmin], [], [c3admin, c3employee, c3manager], []⟩

/-- Ledger rows of an expense with `a` of five rows approved and the rest
pending, distinct approvers. -/
def c4rows (a : Nat) : List LedgerRow :=
  (List.range 5).map
    (fun i => ⟨10, some (101 + i), 1, if i < a then .approved else .pending, none⟩)

/-- Ledger rows of an expense with 57 of 100 rows approved, distinct
approvers. -/
def c4cxRows : List LedgerRow :=
  (List.range 100).map
    (fun i => ⟨12, some (200 + i), 1, if i < 57 then .approved else .pending, none⟩)

/-- Hybrid rule 40: 50 percent or specific approver 7. -/
def c5rule : ApprovalRule := ⟨40, 1, .hybrid, some 0, none, some 50, some 7, some 1, true⟩

/-- Pending expense 11 governed by hybrid rule 40. -/
def c5exp : Expense := ⟨11, 5, 1, 500, .pending, some 40⟩

/-- Ledger row of expense 11. -/
def c5row (a : Nat) (s : Status) : LedgerRow := ⟨11, some a, 1, s, none⟩

/-- Hybrid store with two of the four percentage approvers approved and
the specific approver still pending. -/
def c5st : DBState :=
  ⟨[c5exp], [c5rule], [],
   [c5row 101 .approved, c5row 102 .approved, c5row 103 .pending,
    c5row 104 .pending, c5row 7 .pending], [], []⟩

/-- Hybrid store with every row pending. -/
def c5stFresh : DBState :=
  ⟨[c5exp], [c5rule], [],
   [c5row 101 .pending, c5row 102 .pending, c5row 103 .pending,
    c5row 104 .pending, c5row 7 .pending], [], []⟩

/-- Sequential rule 60 for the all-approve run. -/
def c6rule : ApprovalRule := ⟨60, 1, .sequential, some 0, none, none, none, some 1, true⟩

/-- Pending expense 10 governed by sequential rule 60. -/
def c6exp : Expense := { c1exp with approval_rule_id := some 60 }

/-- Store with two pending sequential approvers 101 and 102. -/
def c6st : DBState :=
  ⟨[c6exp], [c6rule], [], [⟨10, some 101, 1, .pending, none⟩, ⟨10, some 102, 2, .pending, none⟩],
   [], []⟩

/-- Store for the veto witness: sequential expense with two pending
approvers. -/
def c7st : DBState := c6st

/-- Store with TWO pending ledger rows for the same (expense 10, approver
7) pair, as hybrid construction creates when the specific approver is also
an active manager or admin, plus a row for approver 101. -/
def c8st : DBState :=
  ⟨[c1exp], [c1rule], [], [c1row 7, c1row 7, c1row 101], [], []⟩

/-- Store with no ledger rows at all (every process call must be refused). -/
def c8stEmpty : DBState := ⟨[c1exp], [c1rule], [], [], [], []⟩

/-- Specific-approver rule 50 naming approver 7. -/
def c9rule : ApprovalRule := ⟨50, 1, .specific_approver, some 0, none, none, some 7, some 1, true⟩

/-- Committed store before a submission under the specific-approver rule:
expense id 100 is fresh (no expense row, no ledger rows). -/
def c9st : DBState := ⟨[], [c9rule], [], [], [c3admin, c3employee, c3manager], []⟩

/-- Store whose sequential rule 30 has no steps at all. -/
def c10st : DBState := ⟨[c3exp], [c3rule], [], [], [], []⟩

/-! ## Lemmas about the rule-selection order -/

theorem seqBefore_irrefl (a : ApprovalRule) : seqBefore a a = false := by
  unfold seqBefore
  cases a.sequence_order <;> simp

theorem ruleBefore_irrefl (a : ApprovalRule) : ruleBefore a a = false := by
  unfold ruleBefore
  cases a.min_amount <;> simp [seqBefore_irrefl]

theorem seqBefore_trans {a b c : ApprovalRule} (h1 : seqBefore a b = true)
    (h2 : seqBefore b c = true) : seqBefore a c = true := by
  unfold seqBefore at h1 h2 ⊢
  cases ha : a.sequence_order <;> cases hb : b.sequence_order <;>
    cases hc : c.sequence_order <;> simp_all <;> omega

theorem seqBefore_false_trans {a b c : ApprovalRule} (h1 : seqBefore a b = false)
    (h2 : seqBefore b c = false) : seqBefore a c = false := by
  unfold seqBefore at h1 h2 ⊢
  cases ha : a.sequence_order <;> cases hb : b.sequence_order <;>
    cases hc : c.sequence_order <;> simp_all <;> omega

theorem ruleBefore_trans {a b c : ApprovalRule} (h1 : ruleBefore a b = true)
    (h2 : ruleBefore b c = true) : ruleBefore a c = true := by
  unfold ruleBefore at h1 h2 ⊢
  cases ha : a.min_amount with
  | none =>
      cases hb : b.min_amount <;> cases hc : c.min_amount <;> simp_all
      exact seqBefore_trans h1 h2
  | some x =>
      cases hb : b.min_amount with
      | none => simp_all
      | some y =>
          cases hc : c.min_amount with
          | none => simp_all
          | some z =>
              simp_all
              rcases h1 with h1 | ⟨h1le, h1seq⟩ <;> rcases h2 with h2 | ⟨h2le, h2seq⟩
              · exact Or.inl (by linarith)
              · exact Or.inl (by linarith)
              · exact Or.inl (by linarith)
              · exact Or.inr ⟨by linarith, seqBefore_trans h1seq h2seq⟩

theorem ruleBefore_false_trans {a b c : ApprovalRule} (h1 : ruleBefore a b = false)
    (h2 : ruleBefore b c = false) : ruleBefore a c = false := by
  unfold ruleBefore at h1 h2 ⊢
  cases ha : a.min_amount with
  | none =>
      cases hb : b.min_amount <;> cases hc : c.min_amount <;> simp_all
      exact seqBefore_false_trans h1 h2
  | some x =>
      cases hb : b.min_amount with
      | none => cases hc : c.min_amount <;> simp_all
      | some y =>
          cases hc : c.min_amount with
          | none => simp_all
          | some z =>
              simp_all
              obtain ⟨h1le, h1seq⟩ := h1
              obtain ⟨h2le, h2seq⟩ := h2
              refine ⟨by linarith, fun hzx => ?_⟩
              exact seqBefore_false_trans (h1seq (by linarith)) (h2seq (by linarith))

theorem pickRule_fold_sound :
    ∀ (l : List ApprovalRule) (c res : ApprovalRule),
      l.foldl pickRule (some c) = some res →
      (res = c ∨ res ∈ l) ∧ ruleBefore c res = false ∧
        ∀ x ∈ l, ruleBefore x res = false := by
  intro l
  induction l with
  | nil =>
      intro c res h
      simp [List.foldl_nil] at h
      subst h
      simp [ruleBefore_irrefl]
  | cons r rest ih =>
      intro c res h
      rw [List.foldl_cons] at h
      by_cases hrc : ruleBefore r c = true
      · have hstep : pickRule (some c) r = some r := by simp [pickRule, hrc]
        rw [hstep] at h
        obtain ⟨hmem, hrres, hall⟩ := ih r res h
        refine ⟨?_, ?_, ?_⟩
        · rcases hmem with h' | h'
          · exact Or.inr (h' ▸ List.mem_cons_self r rest)
          · exact Or.inr (List.mem_cons_of_mem r h')
        · by_contra hcres
          have hcres' : ruleBefore c res = true := by
            cases h' : ruleBefore c res
            · exact absurd h' hcres
            · rfl
          have : ruleBefore r res = true := ruleBefore_trans hrc hcres'
          rw [hrres] at this
          exact Bool.false_ne_true this
        · intro x hx
          rcases List.mem_cons.mp hx with h' | h'
          · exact h' ▸ hrres
          · exact hall x h'
      · have hrc' : ruleBefore r c = false := by
          cases h' : ruleBefore r c
          · rfl
          · exact absurd h' hrc
        have hstep : pickRule (some c) r = some c := by simp [pickRule, hrc']
        rw [hstep] at h
        obtain ⟨hmem, hcres, hall⟩ := ih c res h
        refine ⟨?_, hcres, ?_⟩
        · rcases hmem with h' | h'
          · exact Or.inl h'
          · exact Or.inr (List.mem_cons_of_mem r h')
        · intro x hx
          rcases List.mem_cons.mp hx with h' | h'
          · exact h' ▸ ruleBefore_false_trans hrc' hcres
          · exact hall x h'

theorem pickRule_fold_isSome :
    ∀ (l : List ApprovalRule) (c : ApprovalRule),
      (l.foldl pickRule (some c)).isSome = true := by
  intro l
  induction l with
  | nil => intro c; rfl
  | cons r rest ih =>
      intro c
      rw [List.foldl_cons]
      by_cases hrc : ruleBefore r c = true
      · have : pickRule (some c) r = some r := by simp [pickRule, hrc]
        rw [this]; exact ih r
      · have hrc' : ruleBefore r c = false := by
          cases h' : ruleBefore r c
          · rfl
          · exact absurd h' hrc
        have : pickRule (some c) r = some c := by simp [pickRule, hrc']
        rw [this]; exact ih c

theorem getApplicableRule_some {rules : List ApprovalRule} {amount : ℚ}
    {cid : Nat} {r : ApprovalRule}
    (h : getApplicableRule rules amount cid = some r) :
    r ∈ rules ∧ ruleMatches amount cid r = true ∧
      ∀ x ∈ rules, ruleMatches amount cid x = true → ruleBefore x r = false := by
  unfold getApplicableRule at h
  cases hf : rules.filter (ruleMatches amount cid) with
  | nil => rw [hf] at h; simp at h
  | cons c tail =>
      rw [hf, List.foldl_cons] at h
      have hstep : pickRule none c = some c := rfl
      rw [hstep] at h
      obtain ⟨hmem, hcres, hall⟩ := pickRule_fold_sound tail c r h
      have hrfilter : r ∈ rules.filter (ruleMatches amount cid) := by
        rw [hf]
        rcases hmem with h' | h'
        · exact h' ▸ List.mem_cons_self c tail
        · exact List.mem_cons_of_mem c h'
      have hrmem := List.mem_filter.mp hrfilter
      refine ⟨hrmem.1, hrmem.2, ?_⟩
      intro x hx hmatch
      have hxfilter : x ∈ rules.filter (ruleMatches amount cid) :=
        List.mem_filter.mpr ⟨hx, hmatch⟩
      rw [hf] at hxfilter
      rcases List.mem_cons.mp hxfilter with h' | h'
      · exact h' ▸ hcres
      · exact hall x h'

theorem getApplicableRule_none {rules : List ApprovalRule} {amount : ℚ} {cid : Nat} :
    getApplicableRule rules amount cid = none ↔
      ∀ x ∈ rules, ruleMatches amount cid x = false := by
  unfold getApplicableRule
  cases hf : rules.filter (ruleMatches amount cid) with
  | nil =>
      simp only [List.foldl_nil]
      constructor
      · intro _ x hx
        cases hm : ruleMatches amount cid x
        · rfl
        · exfalso
          have : x ∈ rules.filter (ruleMatches amount cid) :=
            List.mem_filter.mpr ⟨hx, hm⟩
          rw [hf] at this
          exact (List.not_mem_nil x) this
      · intro _; trivial
  | cons c tail =>
      rw [List.foldl_cons]
      have hstep : pickRule none c = some c := rfl
      rw [hstep]
      constructor
      · intro h
        have := pickRule_fold_isSome tail c
        rw [h] at this
        exact absurd this (by simp)
      · intro h
        exfalso
        have hc : c ∈ rules.filter (ruleMatches amount cid) := by
          rw [hf]; exact List.mem_cons_self c tail
        have hc' := List.mem_filter.mp hc
        have := h c hc'.1
        rw [hc'.2] at this
        exact Bool.false_ne_true this.symm

/-! ## Lemmas about the decision processor -/

theorem findExpense_withApprovals (st : DBState) (l : List LedgerRow) (eid : Nat) :
    findExpense { st with approvals := l } eid = findExpense st eid := rfl

theorem findRule_withApprovals (st : DBState) (l : List LedgerRow) (rid : Nat) :
    findRule { st with approvals := l } rid = findRule st rid := rfl

theorem find_map_status (eid : Nat) (s : Status) :
    ∀ l : List Expense,
      (l.map (fun e => if e.id == eid then { e with status := s } else e)).find?
          (fun e => e.id == eid) =
        (l.find? (fun e => e.id == eid)).map (fun e => { e with status := s }) := by
  intro l
  induction l with
  | nil => rfl
  | cons e rest ih =>
      cases he : (e.id == eid) with
      | true =>
          have hfe : (if (e.id == eid) = true then ({ e with status := s } : Expense) else e) =
              { e with status := s } := if_pos he
          have hpe : ((({ e with status := s } : Expense).id) == eid) = true := he
          rw [List.map_cons, hfe, List.find?_cons, List.find?_cons, hpe]
          simp [hfe]
      | false =>
          have hfe : (if (e.id == eid) = true then ({ e with status := s } : Expense) else e) = e :=
            if_neg (by simp [he])
          rw [List.map_cons, hfe, List.find?_cons, List.find?_cons, he, ih]

theorem findExpense_set (st : DBState) (eid : Nat) (s : Status) :
    findExpense (setExpenseStatus st eid s) eid =
      (findExpense st eid).map (fun e => { e with status := s }) := by
  unfold findExpense setExpenseStatus
  exact find_map_status eid s st.expenses

theorem updateRows_filter (l : List LedgerRow) (eid aid : Nat) (act : Action)
    (c : Option String) :
    (updateApprovalRows l eid aid act c).filter (fun r => r.expense_id == eid) =
      (l.filter (fun r => r.expense_id == eid)).map
        (fun r =>
          if r.approver_id == some aid && r.status == Status.pending then
            { r with status := act.toStatus, comments := c }
          else r) := by
  induction l with
  | nil => rfl
  | cons r rest ih =>
      unfold updateApprovalRows at ih ⊢
      by_cases he : (r.expense_id == eid) = true
      · have he' : r.expense_id = eid := by simpa using he
        by_cases hap : (r.approver_id == some aid && r.status == Status.pending) = true
        · have hap' : r.approver_id = some aid ∧ r.status = Status.pending := by
            simpa using hap
          simp only [List.filter_cons, List.map_cons] at ih ⊢
          simp [he', hap'.1, hap'.2] at ih ⊢
          exact ih
        · have hap' : ¬(r.approver_id = some aid ∧ r.status = Status.pending) := by
            intro hcontra
            exact hap (by simp [hcontra.1, hcontra.2])
          simp [List.filter_cons, List.map_cons, he', hap'] at ih ⊢
          exact ih
      · have he' : ¬(r.expense_id = eid) := by
          intro hcontra
          exact he (by simp [hcontra])
        simp [List.filter_cons, List.map_cons, he'] at ih ⊢
        exact ih

theorem rowsOf_update (st : DBState) (eid aid : Nat) (act : Action) (c : Option String) :
    rowsOf { st with approvals := updateApprovalRows st.approvals eid aid act c } eid =
      (rowsOf st eid).map
        (fun r =>
          if r.approver_id == some aid && r.status == Status.pending then
            { r with status := act.toStatus, comments := c }
          else r) := by
  unfold rowsOf
  exact updateRows_filter st.approvals eid aid act c

theorem checkSeq_all_approved {rows : List LedgerRow}
    (h : ∀ r ∈ rows, r.status = Status.approved) :
    checkSequentialApproval rows = some Status.approved := by
  unfold checkSequentialApproval
  have hall : rows.all (fun r => r.status == Status.approved) = true := by
    rw [List.all_eq_true]
    intro r hr
    simp [h r hr]
  have hrej : rows.any (fun r => r.status == Status.rejected) = false := by
    rw [List.any_eq_false]
    intro r hr
    simp [h r hr]
  simp [hall, hrej]

theorem checkSeq_none {rows : List LedgerRow}
    (hnor : ∀ r ∈ rows, r.status ≠ Status.rejected)
    (hnp : ∃ r ∈ rows, r.status = Status.pending) :
    checkSequentialApproval rows = none := by
  unfold checkSequentialApproval
  have hrej : rows.any (fun r => r.status == Status.rejected) = false := by
    rw [List.any_eq_false]
    intro r hr
    simpa using hnor r hr
  have hall : rows.all (fun r => r.status == Status.approved) = false := by
    obtain ⟨r, hr, hrp⟩ := hnp
    rw [Bool.eq_false_iff]
    intro hcontra
    rw [List.all_eq_true] at hcontra
    have := hcontra r hr
    rw [hrp] at this
    simp at this
  simp [hall, hrej]

theorem checkSeq_approved_iff (rows : List LedgerRow) :
    checkSequentialApproval rows = some Status.approved ↔
      ∀ r ∈ rows, r.status = Status.approved := by
  constructor
  · intro h
    unfold checkSequentialApproval at h
    by_cases hrej : rows.any (fun r => r.status == Status.rejected) = true
    · simp [hrej] at h
    · have hrej' : rows.any (fun r => r.status == Status.rejected) = false := by
        cases h' : rows.any (fun r => r.status == Status.rejected)
        · rfl
        · exact absurd h' hrej
      by_cases hall : rows.all (fun r => r.status == Status.approved) = true
      · intro r hr
        rw [List.all_eq_true] at hall
        simpa using hall r hr
      · have hall' : rows.all (fun r => r.status == Status.approved) = false := by
          cases h' : rows.all (fun r => r.status == Status.approved)
          · rfl
          · exact absurd h' hall
        simp [hrej', hall'] at h
  · exact checkSeq_all_approved

theorem processApproval_isSome {st : DBState} {eid aid : Nat} {act : Action}
    {c : Option String} (h : (findExpense st eid).isSome = true) :
    (processApproval st eid aid act c).isSome = true := by
  obtain ⟨e, he⟩ := Option.isSome_iff_exists.mp h
  simp only [processApproval, shouldUpdateExpenseStatus]
  have he1 : findExpense { st with approvals := updateApprovalRows st.approvals eid aid act c } eid = some e := he
  rw [he1]
  dsimp only
  cases hb : e.approval_rule_id.bind (findRule { st with approvals := updateApprovalRows st.approvals eid aid act c }) with
  | none => simp
  | some rule =>
      dsimp only
      by_cases hact : (act == Action.rejected) = true
      · rw [if_pos hact]
        have hset : findExpense
            (setExpenseStatus { st with approvals := updateApprovalRows st.approvals eid aid act c } eid Status.rejected) eid =
              some { e with status := Status.rejected } := by
          rw [findExpense_set, he1]
          rfl
        dsimp only
        rw [hset]
        simp
      · rw [if_neg hact]
        cases hd :
            (match rule.rule_type with
              | RuleType.sequential =>
                  checkSequentialApproval
                    (rowsOf { st with approvals := updateApprovalRows st.approvals eid aid act c } eid)
              | RuleType.percentage =>
                  checkPercentageApproval
                    (rowsOf { st with approvals := updateApprovalRows st.approvals eid aid act c } eid)
                    (rule.percentage_required.getD 0)
              | RuleType.specific_approver => some Status.approved
              | RuleType.hybrid =>
                  checkHybridApproval
                    { st with approvals := updateApprovalRows st.approvals eid aid act c } eid
                    (rule.percentage_required.getD 0)) with
        | none => simp
        | some s =>
            have hset : findExpense
                (setExpenseStatus { st with approvals := updateApprovalRows st.approvals eid aid act c } eid s) eid =
                  some { e with status := s } := by
              rw [findExpense_set, he1]
              rfl
            dsimp only
            rw [hset]
            simp

/-! ## The sequential all-approve run -/

/-- Effect of the ledger UPDATE on one row of the expense when the decision
is an approval: a pending row of the deciding approver flips to approved,
every other row is untouched. -/
def flipRow (aid : Nat) (r : LedgerRow) : LedgerRow :=
  if r.approver_id == some aid && r.status == Status.pending then
    { r with status := Status.approved, comments := none }
  else r

theorem rowsOf_update_approve (st : DBState) (eid aid : Nat) :
    rowsOf { st with approvals := updateApprovalRows st.approvals eid aid Action.approved none } eid =
      (rowsOf st eid).map (flipRow aid) :=
  rowsOf_update st eid aid Action.approved none

theorem flipRow_approver (aid : Nat) (r : LedgerRow) :
    (flipRow aid r).approver_id = r.approver_id := by
  unfold flipRow
  split <;> rfl

theorem flipRow_self {aid : Nat} {r : LedgerRow} (h : r.approver_id = some aid)
    (hp : r.status = Status.pending) :
    flipRow aid r = { r with status := Status.approved, comments := none } := by
  unfold flipRow
  rw [if_pos (by simp [h, hp])]

theorem flipRow_other {aid : Nat} {r : LedgerRow} (h : r.approver_id ≠ some aid) :
    flipRow aid r = r := by
  unfold flipRow
  rw [if_neg (by simp [h])]

theorem flipRow_not_pending {aid : Nat} {r : LedgerRow} (h : r.status ≠ Status.pending) :
    flipRow aid r = r := by
  unfold flipRow
  rw [if_neg (by simp [h])]

theorem flipRow_not_rejected {aid : Nat} {r : LedgerRow} (h : r.status ≠ Status.rejected) :
    (flipRow aid r).status ≠ Status.rejected := by
  unfold flipRow
  split
  · intro hcontra
    cases hcontra
  · exact h

theorem seq_step {st : DBState} {eid rid : Nat} {remaining : List Nat} {a : Nat}
    (hinv : SeqRunInv st eid rid remaining) (ha : a ∈ remaining) :
    ∃ stOut res, processApproval st eid a Action.approved none = some (stOut, res) ∧
      ((remaining.erase a = [] ∧ statusOf stOut eid = some Status.approved) ∨
       (remaining.erase a ≠ [] ∧ statusOf stOut eid = some Status.pending ∧
         SeqRunInv stOut eid rid (remaining.erase a))) := by
  obtain ⟨⟨e, hfe, hep, herid⟩, ⟨rule, hfr, hrt⟩, hnd, hrows, hcov⟩ := hinv
  have hfe1 : findExpense
      { st with approvals := updateApprovalRows st.approvals eid a Action.approved none } eid = some e := hfe
  have hfr1 : findRule
      { st with approvals := updateApprovalRows st.approvals eid a Action.approved none } rid = some rule := hfr
  have hrows1 := rowsOf_update_approve st eid a
  have hbind : e.approval_rule_id.bind
      (findRule { st with approvals := updateApprovalRows st.approvals eid a Action.approved none }) = some rule := by
    rw [herid]
    simpa using hfr1
  -- Characterization of the rows after the flip.
  have hrows1stat : ∀ r1 ∈ rowsOf
      { st with approvals := updateApprovalRows st.approvals eid a Action.approved none } eid,
      ∃ b, r1.approver_id = some b ∧
        ((b ∈ remaining.erase a ∧ r1.status = Status.pending) ∨
         (b ∉ remaining.erase a ∧ r1.status = Status.approved)) := by
    rw [hrows1]
    intro r1 hr1
    obtain ⟨r0, hr0, hflip⟩ := List.mem_map.mp hr1
    obtain ⟨b, hb, hcase⟩ := hrows r0 hr0
    refine ⟨b, ?_, ?_⟩
    · rw [← hflip, flipRow_approver, hb]
    · rcases hcase with ⟨hbin, hbp⟩ | ⟨hbout, hba⟩
      · by_cases hba' : b = a
        · subst hba'
          right
          refine ⟨?_, ?_⟩
          · intro hcontra
            exact ((List.Nodup.mem_erase_iff hnd).mp hcontra).1 rfl
          · rw [← hflip, flipRow_self hb hbp]
        · left
          refine ⟨(List.Nodup.mem_erase_iff hnd).mpr ⟨hba', hbin⟩, ?_⟩
          rw [← hflip, flipRow_other (by rw [hb]; simp [hba'])]
          exact hbp
      · right
        refine ⟨?_, ?_⟩
        · intro hcontra
          exact hbout (List.erase_subset a remaining hcontra)
        · rw [← hflip, flipRow_not_pending (by simp [hba])]
          exact hba
  have hcov1 : ∀ b ∈ remaining.erase a, ∃ r1 ∈ rowsOf
      { st with approvals := updateApprovalRows st.approvals eid a Action.approved none } eid,
      r1.approver_id = some b := by
    intro b hb
    obtain ⟨r0, hr0, hr0b⟩ := hcov b (List.erase_subset a remaining hb)
    refine ⟨flipRow a r0, ?_, ?_⟩
    · rw [hrows1]
      exact List.mem_map_of_mem (flipRow a) hr0
    · rw [flipRow_approver, hr0b]
  by_cases herase : remaining.erase a = []
  · -- Last approver: every row flips to approved and the expense closes.
    have hall : ∀ r1 ∈ rowsOf
        { st with approvals := updateApprovalRows st.approvals eid a Action.approved none } eid,
        r1.status = Status.approved := by
      intro r1 hr1
      obtain ⟨b, _, hcase⟩ := hrows1stat r1 hr1
      rcases hcase with ⟨hbin, _⟩ | ⟨_, hba⟩
      · rw [herase] at hbin
        exact absurd hbin (List.not_mem_nil b)
      · exact hba
    have hcheck : checkSequentialApproval (rowsOf
        { st with approvals := updateApprovalRows st.approvals eid a Action.approved none } eid) =
          some Status.approved := checkSeq_all_approved hall
    have hset : findExpense
        (setExpenseStatus
          { st with approvals := updateApprovalRows st.approvals eid a Action.approved none }
          eid Status.approved) eid = some { e with status := Status.approved } := by
      rw [findExpense_set, hfe1]
      rfl
    simp only [processApproval, shouldUpdateExpenseStatus]
    rw [hfe1]
    dsimp only
    rw [hbind]
    dsimp only
    rw [if_neg (by decide)]
    rw [hrt]
    dsimp only
    rw [hcheck]
    dsimp only
    rw [hset]
    dsimp only
    refine ⟨_, _, rfl, Or.inl ⟨herase, ?_⟩⟩
    unfold statusOf
    rw [show findExpense
        { setExpenseStatus
            { st with approvals := updateApprovalRows st.approvals eid a Action.approved none }
            eid Status.approved with
          notifications :=
            (setExpenseStatus
              { st with approvals := updateApprovalRows st.approvals eid a Action.approved none }
              eid Status.approved).notifications ++
              [⟨e.employee_id, eid, "expense_status_update",
                "Expense " ++ statusText Status.approved,
                "Your expense has been " ++ statusText Status.approved⟩] } eid =
        some { e with status := Status.approved } from hset]
    rfl
  · -- Some other approver is still pending: no status change, invariant kept.
    obtain ⟨b, hbmem⟩ := List.exists_mem_of_ne_nil _ herase
    obtain ⟨hbne, hbrem⟩ := (List.Nodup.mem_erase_iff hnd).mp hbmem
    obtain ⟨r0, hr0, hr0b⟩ := hcov b hbrem
    have hr0pend : r0.status = Status.pending := by
      obtain ⟨b', hb', hcase⟩ := hrows r0 hr0
      have hbb : b' = b := by
        rw [hr0b] at hb'
        exact (Option.some.injEq _ _ ▸ hb').symm ▸ rfl
      rcases hcase with ⟨_, hp⟩ | ⟨hout, _⟩
      · exact hp
      · exact absurd (hbb ▸ hbrem) hout
    have hpend1 : ∃ r1 ∈ rowsOf
        { st with approvals := updateApprovalRows st.approvals eid a Action.approved none } eid,
        r1.status = Status.pending := by
      refine ⟨flipRow a r0, ?_, ?_⟩
      · rw [hrows1]
        exact List.mem_map_of_mem (flipRow a) hr0
      · rw [flipRow_other (by rw [hr0b]; simp [hbne])]
        exact hr0pend
    have hnorej : ∀ r1 ∈ rowsOf
        { st with approvals := updateApprovalRows st.approvals eid a Action.approved none } eid,
        r1.status ≠ Status.rejected := by
      intro r1 hr1
      obtain ⟨b', _, hcase⟩ := hrows1stat r1 hr1
      rcases hcase with ⟨_, hp⟩ | ⟨_, happ⟩
      · rw [hp]
        intro hcontra
        cases hcontra
      · rw [happ]
        intro hcontra
        cases hcontra
    have hcheck : checkSequentialApproval (rowsOf
        { st with approvals := updateApprovalRows st.approvals eid a Action.approved none } eid) =
          none := checkSeq_none hnorej hpend1
    simp only [processApproval, shouldUpdateExpenseStatus]
    rw [hfe1]
    dsimp only
    rw [hbind]
    dsimp only
    rw [if_neg (by decide)]
    rw [hrt]
    dsimp only
    rw [hcheck]
    dsimp only
    refine ⟨_, _, rfl, Or.inr ⟨herase, ?_, ?_⟩⟩
    · unfold statusOf
      rw [hfe1]
      simp [hep]
    · refine ⟨⟨e, hfe1, hep, herid⟩, ⟨rule, hfr1, hrt⟩, List.Nodup.erase a hnd, hrows1stat, hcov1⟩

theorem seq_run (eid rid : Nat) :
    ∀ (order : List Nat) (st : DBState) (remaining : List Nat),
      order.Perm remaining → SeqRunInv st eid rid remaining →
      (∀ pre suf, order = pre ++ suf → suf ≠ [] →
        ∃ st2, runApprovals eid st pre = some st2 ∧ statusOf st2 eid = some Status.pending) ∧
      (order ≠ [] →
        ∃ st2, runApprovals eid st order = some st2 ∧ statusOf st2 eid = some Status.approved) := by
  intro order
  induction order with
  | nil =>
      intro st remaining hperm hinv
      constructor
      · intro pre suf hsplit hsuf
        have := List.append_eq_nil.mp hsplit.symm
        exact absurd this.2 hsuf
      · intro h
        exact absurd rfl h
  | cons a rest ih =>
      intro st remaining hperm hinv
      have ha : a ∈ remaining := hperm.subset (List.mem_cons_self a rest)
      have hrest : rest.Perm (remaining.erase a) := by
        have h1 : remaining.Perm (a :: remaining.erase a) := List.perm_cons_erase ha
        exact List.Perm.cons_inv (hperm.trans h1)
      have hstpend : statusOf st eid = some Status.pending := by
        obtain ⟨⟨e, hfe, hep, _⟩, _⟩ := hinv
        unfold statusOf
        rw [hfe]
        simp [hep]
      obtain ⟨stOut, res, hproc, hcase⟩ := seq_step hinv ha
      rcases hcase with ⟨herase, happr⟩ | ⟨herase, hpend, hinv2⟩
      · have hrestnil : rest = [] := by
          have h2 := hrest
          rw [herase] at h2
          exact List.Perm.eq_nil h2
        subst hrestnil
        constructor
        · intro pre suf hsplit hsuf
          cases pre with
          | nil => exact ⟨st, rfl, hstpend⟩
          | cons x pre' =>
              rw [List.cons_append] at hsplit
              injection hsplit with h1 h2
              have h3 := List.append_eq_nil.mp h2.symm
              exact absurd h3.2 hsuf
        · intro _
          refine ⟨stOut, ?_, happr⟩
          simp [runApprovals, hproc]
      · have hrestne : rest ≠ [] := by
          intro h
          subst h
          exact herase (List.Perm.eq_nil hrest.symm)
        obtain ⟨ihpre, ihfull⟩ := ih stOut (remaining.erase a) hrest hinv2
        constructor
        · intro pre suf hsplit hsuf
          cases pre with
          | nil => exact ⟨st, rfl, hstpend⟩
          | cons x pre' =>
              rw [List.cons_append] at hsplit
              injection hsplit with h1 h2
              subst h1
              obtain ⟨st2, hrun, hst2⟩ := ihpre pre' suf h2 hsuf
              refine ⟨st2, ?_, hst2⟩
              simp [runApprovals, hproc, hrun]
        · intro _
          obtain ⟨st2, hrun, hst2⟩ := ihfull hrestne
          refine ⟨st2, ?_, hst2⟩
          simp [runApprovals, hproc, hrun]

/-! ## Lemmas about the workflow builder and the route guard -/

theorem seqLoop_eq_filterMap {st : DBState} {eid : Nat} {e : Expense}
    (h : findExpense st eid = some e) :
    ∀ steps : List RuleStep,
      seqLoop st eid steps =
        some (steps.filterMap (seqStepRow st eid e.employee_id)) := by
  intro steps
  induction steps with
  | nil => rfl
  | cons s rest ih =>
      cases hrole : s.approver_role with
      | manager =>
          simp only [seqLoop, hrole, h, ih, List.filterMap_cons, seqStepRow]
          cases hj : jsTruthy ((findUser st e.employee_id).bind (fun u => u.manager_id)) <;>
            simp [hj]
      | admin =>
          simp only [seqLoop, hrole, ih, List.filterMap_cons, seqStepRow]
          cases hj : jsTruthy s.approver_id <;> simp [hj]
      | specific_user =>
          simp only [seqLoop, hrole, ih, List.filterMap_cons, seqStepRow]
          cases hj : jsTruthy s.approver_id <;> simp [hj]

theorem checkHybrid_approved_iff (st : DBState) (eid required : Nat) :
    checkHybridApproval st eid required = some Status.approved ↔
      ((∃ e, findExpense st eid = some e ∧ ∃ rid, e.approval_rule_id = some rid ∧
          ∃ ar, findRule st rid = some ar ∧ ∃ sid, ar.specific_approver_id = some sid ∧
            ∃ r ∈ st.approvals, r.approver_id = some sid ∧ r.status = Status.approved) ∨
        checkPercentageApproval (rowsOf st eid) required = some Status.approved) := by
  unfold checkHybridApproval
  cases hfe : findExpense st eid with
  | none => simp
  | some e =>
      cases hrid : e.approval_rule_id with
      | none => simp [hrid]
      | some rid =>
          cases hfr : findRule st rid with
          | none => simp [hrid, hfr]
          | some ar =>
              cases hsid : ar.specific_approver_id with
              | none => simp [hrid, hfr, hsid]
              | some sid =>
                  cases hany : st.approvals.any
                      (fun r => r.approver_id == some sid && r.status == Status.approved) with
                  | true =>
                      simp only [hrid, hfr, hsid, hany]
                      rw [List.any_eq_true] at hany
                      obtain ⟨r, hr, hcond⟩ := hany
                      have hcond' : r.approver_id = some sid ∧ r.status = Status.approved := by
                        simpa using hcond
                      simp only [if_true]
                      constructor
                      · intro _
                        exact Or.inl ⟨e, rfl, rid, hrid, ar, hfr, sid, hsid, r, hr, hcond'⟩
                      · intro _
                        trivial
                  | false =>
                      simp only [hrid, hfr, hsid, hany]
                      rw [if_neg (by simp)]
                      constructor
                      · intro hp
                        exact Or.inr hp
                      · intro hp
                        rcases hp with ⟨e', he', rid', hrid', ar', hfr', sid', hsid', r, hr, hra, hrs⟩ | hp
                        · exfalso
                          injection he' with he2
                          subst he2
                          rw [hrid] at hrid'
                          injection hrid' with h2
                          subst h2
                          rw [hfr] at hfr'
                          injection hfr' with h3
                          subst h3
                          rw [hsid] at hsid'
                          injection hsid' with h4
                          subst h4
                          have hcontra : st.approvals.any
                              (fun r => r.approver_id == some sid && r.status == Status.approved) = true := by
                            rw [List.any_eq_true]
                            exact ⟨r, hr, by simp [hra, hrs]⟩
                          rw [hany] at hcontra
                          exact Bool.false_ne_true hcontra
                        · exact hp

theorem pendingRows_expense_isSome {st : DBState} {eid aid cid : Nat}
    (h : pendingApprovalRows st eid aid cid ≠ []) :
    (findExpense st eid).isSome = true := by
  obtain ⟨r, hr⟩ := List.exists_mem_of_ne_nil _ h
  have hmem := List.mem_filter.mp hr
  have hcond := hmem.2
  have hany : st.expenses.any (fun e => e.id == eid && e.company_id == cid) = true := by
    simp only [Bool.and_eq_true] at hcond
    exact hcond.2
  rw [List.any_eq_true] at hany
  obtain ⟨e, he, hcondE⟩ := hany
  have heid : e.id = eid := by
    simp only [Bool.and_eq_true] at hcondE
    simpa using hcondE.1
  unfold findExpense
  rw [List.find?_isSome]
  exact ⟨e, he, by simp [heid]⟩

theorem routeProcess_isOk_iff (st : DBState) (eid aid cid : Nat) (act : Action)
    (c : Option String) :
    (routeProcessApproval st eid aid cid act c).toOption.isSome = true ↔
      pendingApprovalRows st eid aid cid ≠ [] := by
  unfold routeProcessApproval
  by_cases hlen : ((pendingApprovalRows st eid aid cid).length == 0) = true
  · rw [if_pos hlen]
    have hnil : pendingApprovalRows st eid aid cid = [] := by
      rw [← List.length_eq_zero]
      simpa using hlen
    simp [hnil, Except.toOption]
  · rw [if_neg hlen]
    have hne : pendingApprovalRows st eid aid cid ≠ [] := by
      intro hcontra
      exact hlen (by simp [hcontra])
    have hsome : (processApproval st eid aid act c).isSome = true :=
      processApproval_isSome (pendingRows_expense_isSome hne)
    cases hp : processApproval st eid aid act c with
    | none =>
        rw [hp] at hsome
        exact absurd hsome (by simp)
    | some out => simp [hne, Except.toOption]

/-! ## Lemmas about the submission transaction structure -/

theorem find_append_of_none {p : Expense → Bool} {e : Expense} (hpe : p e = true) :
    ∀ l : List Expense, l.find? p = none → (l ++ [e]).find? p = some e := by
  intro l
  induction l with
  | nil =>
      intro _
      simp [List.find?_cons, hpe]
  | cons a t ih =>
      intro h
      rw [List.find?_cons] at h
      rw [List.cons_append, List.find?_cons]
      cases hpa : p a with
      | true =>
          rw [hpa] at h
          dsimp only at h
          exact Option.noConfusion h
      | false =>
          rw [hpa] at h
          exact ih h

theorem findExpense_append {st : DBState} {eid : Nat} {e : Expense}
    (heid : (e.id == eid) = true) (h : findExpense st eid = none) :
    findExpense { st with expenses := st.expenses ++ [e] } eid = some e :=
  find_append_of_none heid st.expenses h

theorem createApprovalWorkflow_ok_shape {st st2 : DBState} {eid rid : Nat}
    (h : createApprovalWorkflow st eid rid = Except.ok st2) :
    ∃ rows, st2 = { st with approvals := st.approvals ++ rows } := by
  unfold createApprovalWorkflow at h
  cases hfr : findRule st rid with
  | none =>
      rw [hfr] at h
      exact Except.noConfusion h
  | some rule =>
      rw [hfr] at h
      dsimp only at h
      cases hrt : rule.rule_type with
      | sequential =>
          rw [hrt] at h
          dsimp only at h
          cases hcs : createSequentialApprovals st eid rid with
          | none =>
              rw [hcs] at h
              exact Except.noConfusion h
          | some s =>
              rw [hcs] at h
              dsimp only at h
              injection h with h2
              subst h2
              unfold createSequentialApprovals at hcs
              obtain ⟨rows, _, hs⟩ := Option.map_eq_some'.mp hcs
              exact ⟨rows, hs.symm⟩
      | percentage =>
          rw [hrt] at h
          dsimp only at h
          cases hcp : createPercentageApprovals st eid rid with
          | none =>
              rw [hcp] at h
              exact Except.noConfusion h
          | some s =>
              rw [hcp] at h
              dsimp only at h
              injection h with h2
              subst h2
              unfold createPercentageApprovals at hcp
              cases hfe : findExpense st eid with
              | none =>
                  rw [hfe] at hcp
                  exact Option.noConfusion hcp
              | some e =>
                  rw [hfe] at hcp
                  dsimp only at hcp
                  injection hcp with h3
                  exact ⟨_, h3.symm⟩
      | specific_approver =>
          rw [hrt] at h
          dsimp only at h
          injection h with h2
          unfold createSpecificApproverApproval at h2
          exact ⟨_, h2.symm⟩
      | hybrid =>
          rw [hrt] at h
          dsimp only at h
          cases hch : createHybridApprovals st eid rid with
          | none =>
              rw [hch] at h
              exact Except.noConfusion h
          | some s =>
              rw [hch] at h
              dsimp only at h
              injection h with h2
              subst h2
              unfold createHybridApprovals at hch
              cases hcp : createPercentageApprovals st eid rid with
              | none =>
                  rw [hcp] at hch
                  exact Option.noConfusion hch
              | some st1 =>
                  rw [hcp] at hch
                  dsimp only at hch
                  have hshape1 : ∃ rows1, st1 = { st with approvals := st.approvals ++ rows1 } := by
                    unfold createPercentageApprovals at hcp
                    cases hfe : findExpense st eid with
                    | none =>
                        rw [hfe] at hcp
                        exact Option.noConfusion hcp
                    | some e =>
                        rw [hfe] at hcp
                        dsimp only at hcp
                        injection hcp with h3
                        exact ⟨_, h3.symm⟩
                  obtain ⟨rows1, hst1⟩ := hshape1
                  cases hfr1 : findRule st1 rid with
                  | none =>
                      rw [hfr1] at hch
                      exact Option.noConfusion hch
                  | some rule1 =>
                      rw [hfr1] at hch
                      dsimp only at hch
                      by_cases hj : jsTruthy rule1.specific_approver_id = true
                      · rw [if_pos hj] at hch
                        injection hch with h4
                        subst hst1
                        unfold createSpecificApproverApproval at h4
                        refine ⟨rows1 ++ [⟨eid, rule1.specific_approver_id, 1, Status.pending, none⟩], ?_⟩
                        rw [← h4]
                        simp [List.append_assoc]
                      · rw [if_neg hj] at hch
                        injection hch with h4
                        subst hst1
                        exact ⟨rows1, h4.symm⟩

theorem runWorkflowTx_fresh {st st2 : DBState} {eid rid : Nat}
    (hfresh : findExpense st eid = none)
    (h : runWorkflowTx st eid rid = some st2) : st2 = st := by
  unfold runWorkflowTx at h
  cases hw : createApprovalWorkflow st eid rid with
  | error e =>
      rw [hw] at h
      exact Option.noConfusion h
  | ok s =>
      rw [hw] at h
      dsimp only at h
      obtain ⟨rows, hs⟩ := createApprovalWorkflow_ok_shape hw
      subst hs
      by_cases hnil : rows = []
      · subst hnil
        rw [if_neg (by simp [hfresh])] at h
        injection h with h2
        rw [← h2]
        simp
      · rw [if_pos (by simp [hfresh]; exact hnil)] at h
        exact Option.noConfusion h

theorem statusOf_withNotifications (st : DBState) (l : List Notification) (eid : Nat) :
    statusOf { st with notifications := l } eid = statusOf st eid := rfl

/-! ## Claims -/

/-- C1: the claim says the Decision Processor moves an expense status only
from Pending to a terminal status, at most once, and that a decision
arriving after the expense is terminal leaves the status unchanged.  The
code has no such guard: on a percentage rule with five approvers and 60
percent required, approver 101 rejects (expense becomes Rejected, a
terminal status), then approvers 102, 103 and 104 approve through the same
route; the third of those approvals recomputes 3/5 = 60 percent and flips
the terminal Rejected expense to Approved.  Every call passes the route's
precondition (each returns ok). -/
theorem C1_terminal_status_reversal :
    (routeProcessApproval c1st0 10 101 1 Action.rejected none).toOption.isSome = true ∧
    statusOf c1s1 10 = some Status.rejected ∧
    (routeProcessApproval c1s1 10 102 1 Action.approved none).toOption.isSome = true ∧
    (routeProcessApproval c1s2 10 103 1 Action.approved none).toOption.isSome = true ∧
    (routeProcessApproval c1s3 10 104 1 Action.approved none).toOption.isSome = true ∧
    statusOf c1s3 10 = some Status.rejected ∧
    statusOf c1s4 10 = some Status.approved := by decide

/-- C2 counterexample: the claim says the selector returns rule A (range
0..100) over rule B (range 0..1000) for amount 50.  Both rules carry the
route's default `sequenceOrder` 1, so they tie on both sort keys
(`min_amount` 0, `sequence_order` 1); with B stored first the selector
returns B, not A. -/
theorem C2_tie_counterexample :
    ruleMatches 50 1 c2ruleA = true ∧ ruleMatches 50 1 c2ruleB = true ∧
    c2ruleB ≠ c2ruleA ∧
    getApplicableRule [c2ruleB, c2ruleA] 50 1 = some c2ruleB := by decide

/-- C2 amended: the selector returns a stored, active, matching rule that
no other matching rule beats on the ordering (highest `min_amount` with
NULL highest, then lowest `sequence_order` with NULL last), and returns
none exactly when no rule matches; among full ties the stored order
decides.  The A-over-B scenario holds once A's `sequenceOrder` is strictly
lower than B's, in both storage orders. -/
theorem C2_selector_amended :
    (∀ (rules : List ApprovalRule) (amount : ℚ) (cid : Nat) (r : ApprovalRule),
        getApplicableRule rules amount cid = some r →
        r ∈ rules ∧ ruleMatches amount cid r = true ∧
          ∀ x ∈ rules, ruleMatches amount cid x = true → ruleBefore x r = false) ∧
    (∀ (rules : List ApprovalRule) (amount : ℚ) (cid : Nat),
        getApplicableRule rules amount cid = none ↔
          ∀ x ∈ rules, ruleMatches amount cid x = false) ∧
    getApplicableRule [c2ruleA1, c2ruleB2] 50 1 = some c2ruleA1 ∧
    getApplicableRule [c2ruleB2, c2ruleA1] 50 1 = some c2ruleA1 := by
  refine ⟨?_, ?_, by decide, by decide⟩
  · intro rules amount cid r h
    exact getApplicableRule_some h
  · intro rules amount cid
    exact getApplicableRule_none

/-- Witness for C2: the amended selector theorem applied to a concrete
one-rule store. -/
theorem C2_selector_amended_witness :
    getApplicableRule [c2ruleA1] 50 1 = some c2ruleA1 ∧
    (c2ruleA1 ∈ [c2ruleA1] ∧ ruleMatches 50 1 c2ruleA1 = true ∧
      ∀ x ∈ [c2ruleA1], ruleMatches 50 1 x = true → ruleBefore x c2ruleA1 = false) :=
  ⟨by decide, C2_selector_amended.1 [c2ruleA1] 50 1 c2ruleA1 (by decide)⟩

/-- C3 counterexample: the claim says an Admin step resolves to a specific
active admin account of the company.  In a store whose company has the
active admin user 7, a sequential rule with one Admin step (and no
`approver_id`, which the rule-creation schema permits) builds zero ledger
rows: the code never looks an admin up, it only reads `step.approver_id`. -/
theorem C3_admin_step_counterexample :
    c3admin ∈ c3stCx.users ∧ c3admin.role = UserRole.admin ∧
    c3admin.is_active = true ∧ c3admin.company_id = 1 ∧
    c3stepAdmin ∈ stepsOfRule c3stCx 30 ∧
    c3stepAdmin.approver_role = ApproverRole.admin ∧
    (createSequentialApprovals c3stCx 10 30).map (fun s => rowsOf s 10) = some [] := by decide

/-- C3 amended: for an existing expense the sequential builder never
blocks and appends exactly one pending row per step that resolves, in step
order: a Manager step resolves to the expense owner's direct manager
looked up at build time, every other step (SpecificUser AND Admin alike)
resolves to `step.approver_id`; a step whose resolution is null or zero is
skipped and produces no row. -/
theorem C3_sequential_builder_amended (st : DBState) (eid rid : Nat) (e : Expense)
    (hfe : findExpense st eid = some e) :
    createSequentialApprovals st eid rid =
      some { st with approvals := st.approvals ++
        (stepsOfRule st rid).filterMap (seqStepRow st eid e.employee_id) } := by
  unfold createSequentialApprovals
  rw [seqLoop_eq_filterMap hfe]
  rfl

/-- Witness for C3: the amended builder theorem applied to the store with
all three step kinds (the admin step is skipped, the manager step resolves
to user 6, the specific-user step to user 9). -/
theorem C3_sequential_builder_amended_witness :
    findExpense c3st 10 = some c3exp ∧
    createSequentialApprovals c3st 10 30 =
      some { c3st with approvals := c3st.approvals ++
        (stepsOfRule c3st 30).filterMap (seqStepRow c3st 10 c3exp.employee_id) } :=
  ⟨by decide, C3_sequential_builder_amended c3st 10 30 c3exp (by decide)⟩

/-- C4 counterexample: the claim says the percentage predicate is
`(approved / total) * 100 >= required` with arithmetic consistent with the
integer `percentageRequired`.  With 57 of 100 rows approved and
`percentageRequired = 57`, exact arithmetic gives exactly 57 percent (so
the claim approves), but the code computes `(57/100)*100` in binary64,
obtaining 56.99999999999999, and does not approve. -/
theorem C4_percentage_float_counterexample :
    exactPercentGe 57 100 57 = true ∧
    c4cxRows.length = 100 ∧
    (c4cxRows.filter (fun r => r.status == Status.approved)).length = 57 ∧
    checkPercentageApproval c4cxRows 57 = none := by decide

/-- C4 amended: the predicate is the binary64 evaluation of
`(approved / total) * 100 >= required`, which for `percentageRequired = 60`
and 5 ledger rows agrees with exact arithmetic: the expense is approved
exactly when the third approval is recorded. -/
theorem C4_percentage_scenario_amended (a : Nat) (ha : a ≤ 5) :
    checkPercentageApproval (c4rows a) 60 = some Status.approved ↔ 3 ≤ a := by
  interval_cases a <;> decide

/-- Witness for C4: the amended scenario theorem at the third approval. -/
theorem C4_percentage_scenario_amended_witness :
    (3 : Nat) ≤ 5 ∧
    (checkPercentageApproval (c4rows 3) 60 = some Status.approved ↔ 3 ≤ 3) :=
  ⟨by decide, C4_percentage_scenario_amended 3 (by decide)⟩

/-- C5 counterexample: the claim says a Hybrid expense is approved iff the
dedicated specific-approver row is approved or the percentage predicate
over the REMAINING (non-specific) rows holds.  With `percentageRequired =
50`, four percentage rows of which two are approved, and the specific row
pending, the claim's predicate holds (2/4 = 50 percent of the remaining
rows) but the code does not approve: it evaluates the percentage over ALL
five rows (2/5 = 40 percent). -/
theorem C5_hybrid_counterexample :
    hybridClaimApproved c5st 11 7 50 = true ∧
    checkHybridApproval c5st 11 50 = none := by decide

/-- C5 amended: the hybrid check approves iff some approved ledger row IN
ANY EXPENSE belongs to the rule's specific approver (the SQL join has no
expense condition on the ledger row), or the percentage predicate over all
rows of the expense (specific row included) holds; the spec's scenario
stands: from a fresh hybrid store the specific approver alone approving
closes the expense with zero percentage approvals recorded. -/
theorem C5_hybrid_amended :
    (∀ (st : DBState) (eid required : Nat),
        checkHybridApproval st eid required = some Status.approved ↔
          ((∃ e, findExpense st eid = some e ∧ ∃ rid, e.approval_rule_id = some rid ∧
              ∃ ar, findRule st rid = some ar ∧ ∃ sid, ar.specific_approver_id = some sid ∧
                ∃ r ∈ st.approvals, r.approver_id = some sid ∧ r.status = Status.approved) ∨
            checkPercentageApproval (rowsOf st eid) required = some Status.approved)) ∧
    (rowsOf c5stFresh 11).filter (fun r => r.status == Status.approved) = [] ∧
    (routeProcessApproval c5stFresh 11 7 1 Action.approved none).toOption.map
        (fun p => statusOf p.1 11) = some (some Status.approved) := by
  refine ⟨checkHybrid_approved_iff, by decide, by decide⟩

/-- C6: for a Sequential expense whose rows are all pending with distinct
approvers, the completion predicate approves exactly when every ledger row
is approved, and for every order of the approvers the run of approvals
keeps the expense Pending after every proper prefix and flips it to
Approved exactly at the last decision. -/
theorem C6_sequential_all_approve
    (st : DBState) (eid rid : Nat) (e : Expense) (rule : ApprovalRule)
    (approvers order : List Nat)
    (hfe : findExpense st eid = some e) (hep : e.status = Status.pending)
    (hea : e.approval_rule_id = some rid)
    (hfr : findRule st rid = some rule) (hrt : rule.rule_type = RuleType.sequential)
    (hnd : approvers.Nodup) (hne : approvers ≠ [])
    (hrows : ∀ r ∈ rowsOf st eid,
      r.status = Status.pending ∧ ∃ a ∈ approvers, r.approver_id = some a)
    (hcov : ∀ a ∈ approvers, ∃ r ∈ rowsOf st eid, r.approver_id = some a)
    (hperm : order.Perm approvers) :
    ((∀ pre suf, order = pre ++ suf → suf ≠ [] →
        ∃ st2, runApprovals eid st pre = some st2 ∧ statusOf st2 eid = some Status.pending) ∧
      (∃ st2, runApprovals eid st order = some st2 ∧
        statusOf st2 eid = some Status.approved)) ∧
    ∀ rows : List LedgerRow,
      checkSequentialApproval rows = some Status.approved ↔
        ∀ r ∈ rows, r.status = Status.approved := by
  have hinv : SeqRunInv st eid rid approvers := by
    refine ⟨⟨e, hfe, hep, hea⟩, ⟨rule, hfr, hrt⟩, hnd, ?_, hcov⟩
    intro r hr
    obtain ⟨hp, a, hamem, hra⟩ := hrows r hr
    exact ⟨a, hra, Or.inl ⟨hamem, hp⟩⟩
  have hone : order ≠ [] := by
    intro h
    subst h
    exact hne (List.Perm.eq_nil hperm.symm)
  obtain ⟨h1, h2⟩ := seq_run eid rid order st approvers hperm hinv
  exact ⟨⟨h1, h2 hone⟩, checkSeq_approved_iff⟩

/-- Witness for C6: the run theorem on a concrete store with approvers 101
and 102. -/
theorem C6_sequential_all_approve_witness :
    (findExpense c6st 10 = some c6exp ∧ c6exp.status = Status.pending ∧
      c6exp.approval_rule_id = some 60 ∧ findRule c6st 60 = some c6rule ∧
      c6rule.rule_type = RuleType.sequential ∧ ([101, 102] : List Nat).Nodup ∧
      ([101, 102] : List Nat) ≠ [] ∧
      (∀ r ∈ rowsOf c6st 10,
        r.status = Status.pending ∧ ∃ a ∈ ([101, 102] : List Nat), r.approver_id = some a) ∧
      (∀ a ∈ ([101, 102] : List Nat), ∃ r ∈ rowsOf c6st 10, r.approver_id = some a)) ∧
    (((∀ pre suf, ([101, 102] : List Nat) = pre ++ suf → suf ≠ [] →
        ∃ st2, runApprovals 10 c6st pre = some st2 ∧ statusOf st2 10 = some Status.pending) ∧
      (∃ st2, runApprovals 10 c6st [101, 102] = some st2 ∧
        statusOf st2 10 = some Status.approved)) ∧
    ∀ rows : List LedgerRow,
      checkSequentialApproval rows = some Status.approved ↔
        ∀ r ∈ rows, r.status = Status.approved) :=
  ⟨by decide,
   C6_sequential_all_approve c6st 10 60 c6exp c6rule [101, 102] [101, 102]
     (by decide) (by decide) (by decide) (by decide) (by decide) (by decide)
     (by decide) (by decide) (by decide) (List.Perm.refl _)⟩

/-- C7: a single Rejected decision by an approver holding a pending ledger
row on an expense with a rule immediately sets the expense status to
Rejected, whatever the rule type and however many other rows are still
pending. -/
theorem C7_reject_veto (st : DBState) (eid aid cid rid : Nat) (e : Expense)
    (rule : ApprovalRule) (c : Option String)
    (hfe : findExpense st eid = some e)
    (hea : e.approval_rule_id = some rid)
    (hfr : findRule st rid = some rule)
    (hpend : pendingApprovalRows st eid aid cid ≠ []) :
    ∃ st2 res, routeProcessApproval st eid aid cid Action.rejected c = .ok (st2, res) ∧
      res.update = true ∧ res.status = some Status.rejected ∧
      statusOf st2 eid = some Status.rejected := by
  have hfe1 : findExpense
      { st with approvals := updateApprovalRows st.approvals eid aid Action.rejected c } eid = some e := hfe
  have hfr1 : findRule
      { st with approvals := updateApprovalRows st.approvals eid aid Action.rejected c } rid = some rule := hfr
  have hbind : e.approval_rule_id.bind
      (findRule { st with approvals := updateApprovalRows st.approvals eid aid Action.rejected c }) = some rule := by
    rw [hea]
    simpa using hfr1
  have hset : findExpense
      (setExpenseStatus
        { st with approvals := updateApprovalRows st.approvals eid aid Action.rejected c }
        eid Status.rejected) eid = some { e with status := Status.rejected } := by
    rw [findExpense_set, hfe1]
    rfl
  unfold routeProcessApproval
  rw [if_neg (by
    intro hcontra
    exact hpend (List.length_eq_zero.mp (by simpa using hcontra)))]
  simp only [processApproval, shouldUpdateExpenseStatus]
  rw [hfe1]
  dsimp only
  rw [hbind]
  dsimp only
  rw [if_pos (by decide)]
  dsimp only
  rw [hset]
  dsimp only
  refine ⟨_, _, rfl, rfl, rfl, ?_⟩
  rw [statusOf_withNotifications]
  unfold statusOf
  rw [hset]
  rfl

/-- Witness for C7: the veto theorem on the concrete two-approver
sequential store. -/
theorem C7_reject_veto_witness :
    (findExpense c7st 10 = some c6exp ∧ c6exp.approval_rule_id = some 60 ∧
      findRule c7st 60 = some c6rule ∧ pendingApprovalRows c7st 10 101 1 ≠ []) ∧
    ∃ st2 res, routeProcessApproval c7st 10 101 1 Action.rejected none = .ok (st2, res) ∧
      res.update = true ∧ res.status = some Status.rejected ∧
      statusOf st2 10 = some Status.rejected :=
  ⟨by decide,
   C7_reject_veto c7st 10 101 1 60 c6exp c6rule none (by decide) (by decide)
     (by decide) (by decide)⟩

/-- C8 counterexample: the claim says recordDecision succeeds only when
EXACTLY ONE pending ledger row for (expenseId, approverId) exists.  Hybrid
construction gives the specific approver a second row when that user is
also an active manager or admin; with two pending rows for (10, 7) the
route succeeds instead of failing. -/
theorem C8_duplicate_rows_counterexample :
    (pendingApprovalRows c8st 10 7 1).length = 2 ∧
    (routeProcessApproval c8st 10 7 1 Action.approved none).toOption.isSome = true := by decide

/-- C8 amended: the process route succeeds iff AT LEAST ONE pending ledger
row for (expenseId, approverId) on an expense of the caller's company
exists, and answers NotAuthorizedError (the 404) when none does — in
particular a second call for an already-decided row, which no longer has a
pending row, fails without touching the store. -/
theorem C8_precondition_amended :
    (∀ (st : DBState) (eid aid cid : Nat) (act : Action) (c : Option String),
        (routeProcessApproval st eid aid cid act c).toOption.isSome = true ↔
          pendingApprovalRows st eid aid cid ≠ []) ∧
    (∀ (st : DBState) (eid aid cid : Nat) (act : Action) (c : Option String),
        pendingApprovalRows st eid aid cid = [] →
          routeProcessApproval st eid aid cid act c = .error RouteError.notAuthorized) := by
  constructor
  · intro st eid aid cid act c
    exact routeProcess_isOk_iff st eid aid cid act c
  · intro st eid aid cid act c h
    unfold routeProcessApproval
    rw [if_pos (by simp [h])]

/-- Witness for C8: the amended precondition theorem on a store with no
ledger rows. -/
theorem C8_precondition_amended_witness :
    pendingApprovalRows c8stEmpty 10 7 1 = [] ∧
    routeProcessApproval c8stEmpty 10 7 1 Action.approved none =
      .error RouteError.notAuthorized :=
  ⟨by decide, C8_precondition_amended.2 c8stEmpty 10 7 1 Action.approved none (by decide)⟩

/-- C9: the expense record and its ledger rows are never observed
partially created.  For a submission with a fresh expense id, every
outcome of the route is all-or-nothing: no ledger row for the new expense
ever commits (the builder transaction, on its own connection, cannot see
the uncommitted expense, so any of its reads throws and any of its
INSERTs violates the `expense_approvals.expense_id` foreign key, rolling
the builder back and the submission with it); a failed submission leaves
no expense row either, and a successful submission commits exactly the
expense together with every row the builder created — the state with the
expense created but only part of its ledger rows does not occur. -/
theorem C9_submission_atomicity (st : DBState) (eid employeeId cid : Nat) (amount : ℚ)
    (ocrInsertFails : Bool)
    (hfresh : findExpense st eid = none) (hrows : rowsOf st eid = []) :
    rowsOf (createExpenseRoute st eid employeeId cid amount ocrInsertFails).1 eid = [] ∧
    ((createExpenseRoute st eid employeeId cid amount ocrInsertFails).2 = false →
      findExpense (createExpenseRoute st eid employeeId cid amount ocrInsertFails).1 eid = none) ∧
    ((createExpenseRoute st eid employeeId cid amount ocrInsertFails).2 = true →
      ∃ ex, (createExpenseRoute st eid employeeId cid amount ocrInsertFails).1 =
          { st with expenses := st.expenses ++ [ex] } ∧ ex.id = eid) := by
  unfold createExpenseRoute
  dsimp only
  cases hr : getApplicableRule st.rules amount cid with
  | none =>
      dsimp only
      cases ocrInsertFails with
      | true =>
          refine ⟨hrows, fun _ => hfresh, fun hcontra => ?_⟩
          simp at hcontra
      | false =>
          refine ⟨hrows, fun hcontra => ?_, fun _ => ⟨_, rfl, rfl⟩⟩
          simp at hcontra
  | some rule =>
      dsimp only
      cases hw : runWorkflowTx st eid rule.id with
      | none =>
          refine ⟨hrows, fun _ => hfresh, fun hcontra => ?_⟩
          simp at hcontra
      | some stWf =>
          have hst : stWf = st := runWorkflowTx_fresh hfresh hw
          subst hst
          cases ocrInsertFails with
          | true =>
              refine ⟨hrows, fun _ => hfresh, fun hcontra => ?_⟩
              simp at hcontra
          | false =>
              refine ⟨hrows, fun hcontra => ?_, fun _ => ⟨_, rfl, rfl⟩⟩
              simp at hcontra

/-- Witness for C9: the atomicity theorem on the concrete
specific-approver store with a failing `ocr_results` INSERT — the
submission fails and leaves neither an expense row nor a ledger row for
the fresh id 100. -/
theorem C9_submission_atomicity_witness :
    (findExpense c9st 100 = none ∧ rowsOf c9st 100 = []) ∧
    (rowsOf (createExpenseRoute c9st 100 5 1 50 true).1 100 = [] ∧
      ((createExpenseRoute c9st 100 5 1 50 true).2 = false →
        findExpense (createExpenseRoute c9st 100 5 1 50 true).1 100 = none) ∧
      ((createExpenseRoute c9st 100 5 1 50 true).2 = true →
        ∃ ex, (createExpenseRoute c9st 100 5 1 50 true).1 =
            { c9st with expenses := c9st.expenses ++ [ex] } ∧ ex.id = 100)) :=
  ⟨⟨by decide, by decide⟩,
   C9_submission_atomicity c9st 100 5 1 50 true (by decide) (by decide)⟩

/-- C10 counterexample: the claim says buildWorkflow raises
ConfigurationError for a Sequential rule with no steps.  The code has no
ConfigurationError at all: for sequential rule 30 with zero steps,
`createApprovalWorkflow` commits successfully and creates zero ledger
rows. -/
theorem C10_no_steps_counterexample :
    (findRule c10st 30).map (fun r => r.rule_type) = some RuleType.sequential ∧
    stepsOfRule c10st 30 = [] ∧
    (createApprovalWorkflow c10st 10 30).toOption = some c10st ∧
    rowsOf c10st 10 = [] := by decide

/-- C10 amended: `createApprovalWorkflow` fails only when the rule id does
not exist (the thrown `Approval rule not found`); a Sequential rule with
no steps succeeds and leaves the store unchanged, creating zero ledger
rows. -/
theorem C10_workflow_failure_amended :
    (∀ (st : DBState) (eid rid : Nat), findRule st rid = none →
        createApprovalWorkflow st eid rid = .error WorkflowError.ruleNotFound) ∧
    (∀ (st : DBState) (eid rid : Nat) (rule : ApprovalRule),
        findRule st rid = some rule → rule.rule_type = RuleType.sequential →
        stepsOfRule st rid = [] → createApprovalWorkflow st eid rid = .ok st) := by
  constructor
  · intro st eid rid h
    unfold createApprovalWorkflow
    rw [h]
  · intro st eid rid rule hfr hrt hsteps
    have hc : createSequentialApprovals st eid rid = some st := by
      unfold createSequentialApprovals
      rw [hsteps]
      simp [seqLoop]
    unfold createApprovalWorkflow
    rw [hfr]
    dsimp only
    rw [hrt]
    dsimp only
    rw [hc]

/-- Witness for C10: both amended clauses on the concrete stepless
store. -/
theorem C10_workflow_failure_amended_witness :
    (findRule c10st 99 = none ∧
      createApprovalWorkflow c10st 10 99 = .error WorkflowError.ruleNotFound) ∧
    (findRule c10st 30 = some c3rule ∧ c3rule.rule_type = RuleType.sequential ∧
      stepsOfRule c10st 30 = [] ∧ createApprovalWorkflow c10st 10 30 = .ok c10st) :=
  ⟨⟨by decide, C10_workflow_failure_amended.1 c10st 10 99 (by decide)⟩,
   ⟨by decide, by decide, by decide,
    C10_workflow_failure_amended.2 c10st 10 30 c3rule (by decide) (by decide) (by decide)⟩⟩

end ExpenseApproval
